import Mathlib

/-!
Shallow embedding of the gLocal probing code
(`main_glocal_probing_efficient.py` and `utils/probing/from_scratch.py`).

Numeric tensor entries are modelled as exact rationals (ℚ), and real-valued
library functions (softmax) as functions on ℝ.  Batches of embeddings are
lists; a probability mass function over the three triplet pairings is a
`List ℚ` of length 3.
-/

namespace Glocal

/-- Embedding of the loss combination in `FromScratch._step` (line 129):
`loss = (1 - self.alpha) * similarity_loss + self.alpha * classification_loss`. -/
def combined_loss (alpha similarity_loss classification_loss : ℚ) : ℚ :=
  (1 - alpha) * similarity_loss + alpha * classification_loss

/-- Embedding of `FromScratch._step` (lines 114-136).  The similarity loss and
the classification loss are computed by `TripletLoss` and `CrossEntropyLoss`
respectively; since only their values at the batch matter for the claims, they
are abstracted as functions of the two halves of the batch.  `_step` reads both
halves of the same batch, computes both losses, combines them and returns the
tuple `(loss, classification_loss, similarity_loss)` (accuracies omitted); the
`batch_idx` argument is accepted and ignored, exactly as in the source. -/
def step {T C : Type} (alpha : ℚ) (similarity_loss_fun : T → ℚ)
    (classification_loss_fun : C → ℚ) (batch : T × C) (batch_idx : ℕ) :
    ℚ × ℚ × ℚ :=
  let similarity_loss := similarity_loss_fun batch.1
  let classification_loss := classification_loss_fun batch.2
  let loss := combined_loss alpha similarity_loss classification_loss
  (loss, classification_loss, similarity_loss)

/-- Embedding of `FromScratch.convert_predictions` (lines 56-63):
`first_conversion = where(p != 1, p - 2, p)`; `ooo = where(first < 0, 2, first)`,
applied entrywise; here given for a single entry. -/
def convert_predictions (sim_prediction : ℤ) : ℤ :=
  let first_conversion :=
    if sim_prediction ≠ 1 then sim_prediction - 2 else sim_prediction
  if first_conversion < 0 then 2 else first_conversion

/-- Embedding of `FromScratch.compute_similarities` (lines 65-75) for one row of
the batch: `sim_i = sum(anchor * positive)`, `sim_j = sum(anchor * negative)`,
`sim_k = sum(positive * negative)` (elementwise product, then sum). -/
def compute_similarities (anchor positive negative : List ℚ) : ℚ × ℚ × ℚ :=
  ((List.zipWith (· * ·) anchor positive).sum,
   (List.zipWith (· * ·) anchor negative).sum,
   (List.zipWith (· * ·) positive negative).sum)

/-- The mathematical inner product of two vectors, written index-wise; used as
the specification-side definition compared against `compute_similarities`. -/
def inner_product (xs ys : List ℚ) : ℚ :=
  ∑ i ∈ Finset.range (min xs.length ys.length), xs.getD i 0 * ys.getD i 0

/-- The feature dataset selected by `run` (main_glocal_probing_efficient.py,
lines 378-403): `utils.probing.FeaturesHDF5` or `utils.probing.FeaturesPT`. -/
inductive FeaturesData : Type
  | hdf5Features : FeaturesData
  | ptFeatures : FeaturesData
deriving DecidableEq

/-- The error message of the unsupported-format branch of `run` (line 402). -/
def features_type_error_msg : String :=
  "Can only create dataset for features that were saved in either pt or hdf5 format."

/-- Embedding of the feature-dataset dispatch at the top of `run`
(lines 378-403): `if features_type == "hdf": ... elif features_type == "pt":
... else: raise ValueError(...)`. -/
def select_features_data (features_type : String) : Except String FeaturesData :=
  if features_type = "hdf" then Except.ok FeaturesData.hdf5Features
  else if features_type = "pt" then Except.ok FeaturesData.ptFeatures
  else Except.error features_type_error_msg

/-- The `choices` list of the `--features_type` argument in `parseargs`
(lines 137-143): `choices=["hdf5", "pt"]`. -/
def features_type_choices : List String := ["hdf5", "pt"]

/-- The optimizer kind constructed by `FromScratch.configure_optimizers`:
`torch.optim.Adam` (via `capitalize`) or `torch.optim.SGD` (via `upper`). -/
inductive OptimizerKind : Type
  | Adam : OptimizerKind
  | SGD : OptimizerKind
deriving DecidableEq

deriving instance DecidableEq for Except

/-- Python str.lower, modelled characterwise on the string's characters
(the optimizer names at play are ASCII). -/
def lower (s : String) : String := String.mk (s.data.map Char.toLower)

/-- The error message of `configure_optimizers` (lines 227-229). -/
def optim_error_msg : String :=
  "Use Adam or SGD for learning a linear transformation of a network feature space."

/-- Embedding of `FromScratch.configure_optimizers` (lines 212-230):
`if self.optim.lower() == "adam": ... elif self.optim.lower() == "sgd": ...
else: raise ValueError(...)`. -/
def configure_optimizers (optim : String) : Except String OptimizerKind :=
  if lower optim = "adam" then Except.ok OptimizerKind.Adam
  else if lower optim = "sgd" then Except.ok OptimizerKind.SGD
  else Except.error optim_error_msg

/-- The `choices` list of the `--optim` argument in `parseargs` (line 61):
`choices=["Adam", "AdamW", "SGD"]`. -/
def optim_choices : List String := ["Adam", "AdamW", "SGD"]

/-- torch.argmax for a one-dimensional tensor: the index of the first maximal
entry (0 on an empty list). -/
def argmax_idx {α : Type} [LinearOrder α] : List α → ℕ
  | [] => 0
  | x :: xs =>
    let t := argmax_idx xs
    if x < xs.getD t x then t + 1 else 0

/-- Rounding to the nearest integer with ties to even, the rounding used by
torch.round and numpy. -/
def round_half_even (q : ℚ) : ℤ :=
  if q - ⌊q⌋ < 1 / 2 then ⌊q⌋
  else if 1 / 2 < q - ⌊q⌋ then ⌊q⌋ + 1
  else if 2 ∣ ⌊q⌋ then ⌊q⌋ else ⌊q⌋ + 1

/-- torch Tensor.round(decimals=2) for one entry: scale by 100, round half to
even, unscale. -/
def round2 (q : ℚ) : ℚ := (round_half_even (100 * q) : ℚ) / 100

/-- torch.unique(t).shape[0]: the number of distinct entries of a
one-dimensional tensor. -/
def unique_count (xs : List ℚ) : ℕ := xs.dedup.length

/-- Embedding of `FromScratch.break_ties` (lines 77-90) for one probability
row: return -1 if `torch.unique(pmf).shape[0] != pmf.shape[0]` or
`torch.unique(pmf.round(decimals=2)).shape[0] == 1`, else `torch.argmax(pmf)`. -/
def break_ties (pmf : List ℚ) : ℤ :=
  if unique_count pmf ≠ pmf.length ∨ unique_count (pmf.map round2) = 1 then -1
  else (argmax_idx pmf : ℤ)

/-- Embedding of `FromScratch.accuracy_` (lines 92-96) in the batching branch:
`choices = break_ties(probas)`; `argmax = np.where(choices == 0, 1, 0)`;
`acc = argmax.mean()`. -/
def accuracy_ (probas : List (List ℚ)) : ℚ :=
  let choices := probas.map break_ties
  let argmax := choices.map (fun choice => if choice = 0 then (1 : ℚ) else 0)
  argmax.sum / argmax.length

/-- torch.nn.functional.softmax along the pairing dimension for one row. -/
noncomputable def softmax (xs : List ℝ) : List ℝ :=
  xs.map (fun x => Real.exp x / (xs.map Real.exp).sum)

/-- Embedding of the decision path of `FromScratch.predict_step`
(lines 201-205) for one row of the batch:
`sim_predictions = argmax(softmax(stack(similarities)))` followed by
`ooo_predictions = convert_predictions(sim_predictions)`.  Note that
`break_ties` is not called on this path. -/
noncomputable def predict_row (sims : List ℝ) : ℤ :=
  convert_predictions (argmax_idx (softmax sims))

/-- Embedding of the outer cross-validation loop of `run` (lines 413-482):
`for k, (train_idx, _) in enumerate(kf.split(objects), start=1): ...;
ooo_choices.append(predictions); cv_results[f"fold_{k:02d}"] = val_performance;
break`.  The per-fold work (partitioning, training, testing, predicting) is
abstracted as `eval_fold`, returning the fold's test performance and its list
of odd-one-out predictions.  Because the `break` at line 482 is unconditional,
the loop body runs at most once; `cv_results` is modelled as an association
list keyed by the fold number `k`, and the final
`ooo_choices = np.concatenate(ooo_choices)` flattens the singleton list. -/
def cv_loop {Fold Perf : Type} (folds : List Fold)
    (eval_fold : Fold → Perf × List ℤ) : List (ℕ × Perf) × List ℤ :=
  match folds with
  | [] => ([], [])
  | f :: _ =>
    let r := eval_fold f
    ([(1, r.1)], r.2)

/-- numpy ndarray.mean() over the whole feature matrix, modelled on the
flattened list of its entries, as used by `run` (line 406). -/
def features_mean (xs : List ℚ) : ℚ := xs.sum / xs.length

/-- The square of numpy ndarray.std(): the population variance of all entries
of the feature matrix. -/
def features_var (xs : List ℚ) : ℚ :=
  ((xs.map (fun x => (x - features_mean xs) ^ 2)).sum) / xs.length

/-- s is the global standard deviation of the entries: numpy std() is the
nonnegative square root of the population variance, and since the square root
leaves ℚ it is characterized here by its square. -/
def is_std (xs : List ℚ) (s : ℚ) : Prop := 0 ≤ s ∧ s ^ 2 = features_var xs

/-- Embedding of the global feature normalization in `run` (lines 405-407):
`features = (features - features.mean()) / features.std()`, applied once to
the whole matrix before the fold loop, with s the global standard deviation. -/
def normalize_features (xs : List ℚ) (s : ℚ) : List ℚ :=
  xs.map (fun x => (x - features_mean xs) / s)

end Glocal

namespace Glocal

/-- C1: the claim states that at α=0 the combined step loss equals the
classification loss (independent of the similarity loss) and at α=1 it equals
the similarity loss.  The code has it the other way around: at α=0 with
similarity loss 1 and classification loss 0 the combined loss is 1, not 0, and
at α=1 it is 0, not 1. -/
theorem combined_loss_alpha_swapped :
    combined_loss 0 1 0 = 1 ∧ combined_loss 0 1 0 ≠ 0 ∧
    combined_loss 1 1 0 = 0 ∧ combined_loss 1 1 0 ≠ 1 := by
  refine ⟨?_, ?_, ?_, ?_⟩ <;> norm_num [combined_loss]

/-- C1 (amended): for every similarity loss value s and classification loss
value c, the loss returned by a step at α=0 equals the similarity loss exactly
(independent of c), and at α=1 it equals the classification loss exactly. -/
theorem step_loss_alpha_endpoints {T C : Type} (similarity_loss_fun : T → ℚ)
    (classification_loss_fun : C → ℚ) (batch : T × C) (batch_idx : ℕ) :
    (step 0 similarity_loss_fun classification_loss_fun batch batch_idx).1 =
      similarity_loss_fun batch.1 ∧
    (step 1 similarity_loss_fun classification_loss_fun batch batch_idx).1 =
      classification_loss_fun batch.2 := by
  constructor <;> simp [step, combined_loss]

/-- C2: the scalar loss returned by a step equals
`(1 - α) * similarity_loss + α * classification_loss` where both loss terms
are computed from the same batch and enter the same returned scalar, and the
result does not depend on the batch index (the two objectives are combined in
every step, never alternated between steps). -/
theorem step_loss_formula {T C : Type} (alpha : ℚ) (similarity_loss_fun : T → ℚ)
    (classification_loss_fun : C → ℚ) (batch : T × C) (i j : ℕ) :
    (step alpha similarity_loss_fun classification_loss_fun batch i).1 =
      (1 - alpha) * similarity_loss_fun batch.1 +
        alpha * classification_loss_fun batch.2 ∧
    (step alpha similarity_loss_fun classification_loss_fun batch i).1 =
      (step alpha similarity_loss_fun classification_loss_fun batch j).1 ∧
    (step alpha similarity_loss_fun classification_loss_fun batch i).2.1 =
      classification_loss_fun batch.2 ∧
    (step alpha similarity_loss_fun classification_loss_fun batch i).2.2 =
      similarity_loss_fun batch.1 := by
  refine ⟨rfl, rfl, rfl, rfl⟩

/-- The elementwise-product-then-sum of the source equals the index-wise inner
product. -/
lemma zipWith_mul_sum_eq_inner_product (xs ys : List ℚ) :
    (List.zipWith (· * ·) xs ys).sum = inner_product xs ys := by
  induction xs generalizing ys with
  | nil => simp [inner_product]
  | cons x xs ih =>
    cases ys with
    | nil => simp [inner_product]
    | cons y ys =>
      simp only [List.zipWith_cons_cons, List.sum_cons, ih, inner_product,
        List.length_cons, Nat.succ_min_succ, Finset.sum_range_succ']
      simp [add_comm]

/-- C4: `compute_similarities` returns exactly the three inner products
anchor·positive, anchor·negative, positive·negative in that order, and
`convert_predictions` maps the arg-max pairing index to the member of the
triplet that is not in the closest pair: 0 ↦ 2, 1 ↦ 1, 2 ↦ 0. -/
theorem compute_similarities_and_convert_predictions
    (anchor positive negative : List ℚ) :
    compute_similarities anchor positive negative =
      (inner_product anchor positive, inner_product anchor negative,
        inner_product positive negative) ∧
    convert_predictions 0 = 2 ∧ convert_predictions 1 = 1 ∧
    convert_predictions 2 = 0 := by
  refine ⟨?_, by decide, by decide, by decide⟩
  simp [compute_similarities, zipWith_mul_sum_eq_inner_product]

/-- C6: the argument parser declares the supported feature-storage formats to
be hdf5 and pt, but the dispatch in `run` tests the string hdf against
features_type, so the declared-supported value hdf5 falls through to the
unsupported-format error branch. -/
theorem select_features_data_rejects_hdf5 :
    "hdf5" ∈ features_type_choices ∧
    select_features_data "hdf5" = Except.error features_type_error_msg ∧
    select_features_data "pt" = Except.ok FeaturesData.ptFeatures ∧
    select_features_data "hdf" = Except.ok FeaturesData.hdf5Features := by
  refine ⟨by decide, rfl, rfl, rfl⟩

/-- C7: the argument parser declares the recognized optimizer names to be
Adam, AdamW and SGD, but `configure_optimizers` only recognizes adam and sgd
(case-insensitively), so the declared-valid name AdamW raises the
configuration error. -/
theorem configure_optimizers_rejects_adamw :
    "AdamW" ∈ optim_choices ∧
    configure_optimizers "AdamW" = Except.error optim_error_msg ∧
    configure_optimizers "Adam" = Except.ok OptimizerKind.Adam ∧
    configure_optimizers "SGD" = Except.ok OptimizerKind.SGD := by
  refine ⟨by decide, by decide, by decide, by decide⟩

/-- C8: the outer cross-validation loop executes exactly one fold iteration
before stopping: whatever the list of folds produced by the 4-fold split, the
returned cv-results mapping has exactly one entry, keyed by fold number 1 and
holding the first fold's performance, and the returned odd-one-out choices are
exactly the first fold's predictions. -/
theorem cv_loop_stops_after_first_fold {Fold Perf : Type} (folds : List Fold)
    (eval_fold : Fold → Perf × List ℤ) (f : Fold) (rest : List Fold)
    (hf : folds = f :: rest) :
    (cv_loop folds eval_fold).1.length = 1 ∧
    cv_loop folds eval_fold = ([(1, (eval_fold f).1)], (eval_fold f).2) := by
  subst hf
  constructor <;> simp [cv_loop]

/-- The number of distinct entries among three values, in closed form. -/
lemma unique_count_three (a b c : ℚ) :
    unique_count [a, b, c] =
      if b = c then (if a = b then 1 else 2)
      else if a = b ∨ a = c then 2 else 3 := by
  by_cases hbc : b = c <;> by_cases hab : a = b <;> by_cases hac : a = c <;>
    simp_all [unique_count, List.dedup_cons_of_mem, List.dedup_cons_of_not_mem]

/-- The sentinel condition of `break_ties` on a three-entry row, stated the way
the specification words it: some two entries coincide, or all three entries
agree after rounding to two decimals. -/
lemma break_ties_cond_iff (a b c : ℚ) :
    (unique_count [a, b, c] ≠ [a, b, c].length ∨
        unique_count ([a, b, c].map round2) = 1) ↔
      (¬ (a ≠ b ∧ a ≠ c ∧ b ≠ c) ∨
        (round2 a = round2 b ∧ round2 a = round2 c)) := by
  rw [List.map_cons, List.map_cons, List.map_cons, List.map_nil]
  rw [unique_count_three, unique_count_three]
  constructor
  · rintro (h | h)
    · left
      intro ⟨h1, h2, h3⟩
      simp [h3, h1, h2] at h
    · right
      by_cases hbc : round2 b = round2 c <;> by_cases hab : round2 a = round2 b <;>
        by_cases hac : round2 a = round2 c <;> simp_all
  · rintro (h | ⟨h1, h2⟩)
    · left
      simp only [List.length_cons, List.length_nil]
      by_cases hbc : b = c <;> by_cases hab : a = b <;> by_cases hac : a = c <;>
        simp_all
    · right
      rw [← h1, ← h2]
      simp

/-- C3: for a three-entry probability row, `break_ties` returns the sentinel -1
exactly when the entries are not all distinct or when all entries collapse to
one value after rounding to two decimals; otherwise it returns the arg-max
index, the unique index strictly dominating the others.  In particular
[0.5, 0.5, 0.0] and [0.34, 0.33, 0.33] yield -1 and [0.7, 0.2, 0.1] yields 0. -/
theorem break_ties_tie_break_policy (a b c : ℚ) :
    (break_ties [a, b, c] = -1 ↔
      (¬ (a ≠ b ∧ a ≠ c ∧ b ≠ c) ∨
        (round2 a = round2 b ∧ round2 a = round2 c))) ∧
    ((a ≠ b ∧ a ≠ c ∧ b ≠ c) →
      ¬ (round2 a = round2 b ∧ round2 a = round2 c) →
      ∃ i : Fin 3, break_ties [a, b, c] = (i.val : ℤ) ∧
        ∀ j : Fin 3, j ≠ i →
          [a, b, c].getD j.val 0 < [a, b, c].getD i.val 0) ∧
    break_ties [1/2, 1/2, 0] = -1 ∧
    break_ties [34/100, 33/100, 33/100] = -1 ∧
    break_ties [7/10, 2/10, 1/10] = 0 := by
  have hcond := break_ties_cond_iff a b c
  refine ⟨⟨?_, ?_⟩, ?_, ?_, ?_, ?_⟩
  · intro hm1
    by_contra hnot
    rw [← hcond] at hnot
    rw [break_ties, if_neg hnot] at hm1
    omega
  · intro h
    rw [break_ties, if_pos (hcond.mpr h)]
  · intro hd hr
    have hnot : ¬ (unique_count [a, b, c] ≠ [a, b, c].length ∨
        unique_count ([a, b, c].map round2) = 1) := by
      rw [hcond]
      push_neg
      exact ⟨hd, fun h1 h2 => hr ⟨h1, h2⟩⟩
    rw [break_ties, if_neg hnot]
    obtain ⟨hab, hac, hbc⟩ := hd
    by_cases h1 : b < c
    · by_cases h2 : a < c
      · refine ⟨⟨2, by omega⟩, ?_, ?_⟩
        · simp [argmax_idx, h1, h2]
        · intro j hj
          fin_cases j <;> simp_all [argmax_idx, h1, h2]
      · have hca : c < a := lt_of_le_of_ne (not_lt.mp h2) (Ne.symm hac)
        refine ⟨⟨0, by omega⟩, ?_, ?_⟩
        · simp [argmax_idx, h1, h2]
        · intro j hj
          fin_cases j <;> simp_all
          · exact h1.trans hca
    · have hcb : c < b := lt_of_le_of_ne (not_lt.mp h1) (Ne.symm hbc)
      by_cases h2 : a < b
      · refine ⟨⟨1, by omega⟩, ?_, ?_⟩
        · simp [argmax_idx, h1, h2]
        · intro j hj
          fin_cases j <;> simp_all
      · have hba : b < a := lt_of_le_of_ne (not_lt.mp h2) (Ne.symm hab)
        refine ⟨⟨0, by omega⟩, ?_, ?_⟩
        · simp [argmax_idx, h1, h2]
        · intro j hj
          fin_cases j <;> simp_all
          · exact hcb.trans hba
  · norm_num [break_ties, unique_count, List.dedup_cons_of_mem,
      List.dedup_cons_of_not_mem]
  · norm_num [break_ties, unique_count, List.dedup_cons_of_mem,
      List.dedup_cons_of_not_mem]
  · norm_num [break_ties, unique_count, round2, round_half_even, argmax_idx,
      List.dedup_cons_of_mem, List.dedup_cons_of_not_mem]

/-- Witness for C3: at the distinct, non-collapsing row [0.7, 0.2, 0.1] the
theorem produces the strictly dominating arg-max index. -/
theorem break_ties_tie_break_policy_witness :
    ∃ i : Fin 3, break_ties [7/10, 2/10, 1/10] = (i.val : ℤ) ∧
      ∀ j : Fin 3, j ≠ i →
        [(7 : ℚ)/10, 2/10, 1/10].getD j.val 0 <
          [(7 : ℚ)/10, 2/10, 1/10].getD i.val 0 :=
  (break_ties_tie_break_policy (7/10) (2/10) (1/10)).2.1
    (by norm_num)
    (by norm_num [round2, round_half_even])

/-- Mapping a strictly monotone function over a list does not change the index
of the first maximal entry. -/
lemma argmax_idx_map {α β : Type} [LinearOrder α] [LinearOrder β] {f : α → β}
    (hf : StrictMono f) (xs : List α) :
    argmax_idx (xs.map f) = argmax_idx xs := by
  induction xs with
  | nil => rfl
  | cons x xs ih =>
    show (if f x < (xs.map f).getD (argmax_idx (xs.map f)) (f x)
        then argmax_idx (xs.map f) + 1 else 0) =
      (if x < xs.getD (argmax_idx xs) x then argmax_idx xs + 1 else 0)
    rw [ih, List.getD_map]
    simp only [hf.lt_iff_lt]

/-- Softmax is a strictly monotone reparametrization, so it preserves the
arg-max index. -/
lemma argmax_idx_softmax (xs : List ℝ) :
    argmax_idx (softmax xs) = argmax_idx xs := by
  cases xs with
  | nil => rfl
  | cons y ys =>
    have hS : 0 < ((y :: ys).map Real.exp).sum := by
      apply List.sum_pos
      · intro z hz
        simp only [List.mem_map] at hz
        obtain ⟨w, _, rfl⟩ := hz
        exact Real.exp_pos w
      · simp
    have hf : StrictMono
        (fun x : ℝ => Real.exp x / ((y :: ys).map Real.exp).sum) := by
      intro a b hab
      exact (div_lt_div_iff_of_pos_right hS).mpr (Real.exp_lt_exp.mpr hab)
    exact argmax_idx_map hf (y :: ys)

/-- The odd-one-out conversion of a nonnegative arg-max index is never the
sentinel: its outputs are always nonnegative. -/
lemma convert_predictions_nonneg (p : ℤ) : 0 ≤ convert_predictions p := by
  simp only [convert_predictions]
  split_ifs <;> omega

/-- C5 (amended): for every similarity row, the Predicting path emits the
odd-one-out conversion of the plain arg-max of the softmax probabilities,
which equals the conversion of the arg-max of the raw similarities; the
emitted choice is always a nonnegative index, never the sentinel -1, and the
whole path is a total function (no exception is raised). -/
theorem predict_row_is_plain_argmax (sims : List ℝ) :
    predict_row sims = convert_predictions (argmax_idx sims) ∧
    0 ≤ predict_row sims ∧ predict_row sims ≠ -1 := by
  have h2 : 0 ≤ predict_row sims := convert_predictions_nonneg _
  exact ⟨by rw [predict_row, argmax_idx_softmax], h2, by omega⟩

/-- C5 counterexample: on a row of equal similarities the softmax probabilities
are the fully tied row [1/3, 1/3, 1/3], for which the tie-break condition
fires (`break_ties` returns the sentinel -1); yet `predict_step` emits the
arg-max-derived choice 2 for that row, not the sentinel. -/
theorem predict_row_tie_counterexample :
    softmax [0, 0, 0] = [(1 : ℝ)/3, 1/3, 1/3] ∧
    break_ties [1/3, 1/3, 1/3] = -1 ∧
    predict_row [0, 0, 0] = 2 ∧ predict_row [0, 0, 0] ≠ -1 := by
  have hsm : softmax [0, 0, 0] = [(1 : ℝ)/3, 1/3, 1/3] := by
    simp [softmax, Real.exp_zero]
    norm_num
  refine ⟨hsm, ?_, ?_, ?_⟩
  · norm_num [break_ties, unique_count, List.dedup_cons_of_mem,
      List.dedup_cons_of_not_mem]
  · rw [predict_row, hsm]
    norm_num [argmax_idx, convert_predictions]
  · rw [predict_row, hsm]
    norm_num [argmax_idx, convert_predictions]

/-- The sum of a 0/1 indicator over a list counts the entries satisfying the
predicate. -/
lemma sum_indicator_eq_countP {α : Type} (q : α → Prop) [DecidablePred q]
    (xs : List α) :
    (xs.map (fun x => if q x then (1 : ℚ) else 0)).sum =
      (xs.countP (fun x => decide (q x)) : ℚ) := by
  induction xs with
  | nil => simp
  | cons x xs ih =>
    by_cases hq : q x <;> simp [List.countP_cons, hq, ih, add_comm]

/-- A tie-broken choice of 0 can only come from the arg-max branch, so it
forces the arg-max index to be 0; in particular the sentinel -1 never counts
as a correct choice. -/
lemma break_ties_eq_zero_imp (p : List ℚ) (h : break_ties p = 0) :
    argmax_idx p = 0 := by
  by_cases hc : unique_count p ≠ p.length ∨ unique_count (p.map round2) = 1
  · rw [break_ties, if_pos hc] at h
    omega
  · rw [break_ties, if_neg hc] at h
    omega

/-- C10: the batched choice accuracy is exactly the fraction of rows whose
tie-broken choice is index 0; since a sentinel row never has choice 0, rows
where the tie-break fires count as incorrect, so the reported accuracy is at
most the accuracy obtained by resolving every row with the plain arg-max. -/
theorem accuracy_is_fraction_of_zero_choices (probas : List (List ℚ))
    (h : probas ≠ []) :
    accuracy_ probas =
      (probas.countP (fun p => break_ties p == 0) : ℚ) / probas.length ∧
    accuracy_ probas ≤
      (probas.countP (fun p => argmax_idx p == 0) : ℚ) / probas.length := by
  have hlen : (0 : ℚ) < probas.length := by
    have : 0 < probas.length := List.length_pos.mpr h
    exact_mod_cast this
  have hnum : ((probas.map break_ties).map
      (fun choice => if choice = 0 then (1 : ℚ) else 0)).sum =
      (probas.countP (fun p => break_ties p == 0) : ℚ) := by
    rw [List.map_map]
    have := sum_indicator_eq_countP (fun p : List ℚ => break_ties p = 0) probas
    simpa using this
  have heq : accuracy_ probas =
      (probas.countP (fun p => break_ties p == 0) : ℚ) / probas.length := by
    rw [accuracy_]
    simp only [List.length_map]
    rw [hnum]
  refine ⟨heq, ?_⟩
  rw [heq]
  have hmono : probas.countP (fun p => break_ties p == 0) ≤
      probas.countP (fun p => argmax_idx p == 0) := by
    apply List.countP_mono_left
    intro p _ hp
    simp only [beq_iff_eq] at hp ⊢
    exact break_ties_eq_zero_imp p hp
  have hcast : (probas.countP (fun p => break_ties p == 0) : ℚ) ≤
      (probas.countP (fun p => argmax_idx p == 0) : ℚ) := by
    exact_mod_cast hmono
  exact (div_le_div_iff_of_pos_right hlen).mpr hcast

/-- Witness for C10 at the one-row batch [[0.7, 0.2, 0.1]]. -/
theorem accuracy_is_fraction_of_zero_choices_witness :
    ([[(7 : ℚ)/10, 2/10, 1/10]] : List (List ℚ)) ≠ [] ∧
    (accuracy_ [[(7 : ℚ)/10, 2/10, 1/10]] =
      (([[(7 : ℚ)/10, 2/10, 1/10]] : List (List ℚ)).countP
        (fun p => break_ties p == 0) : ℚ) /
        ([[(7 : ℚ)/10, 2/10, 1/10]] : List (List ℚ)).length ∧
    accuracy_ [[(7 : ℚ)/10, 2/10, 1/10]] ≤
      (([[(7 : ℚ)/10, 2/10, 1/10]] : List (List ℚ)).countP
        (fun p => argmax_idx p == 0) : ℚ) /
        ([[(7 : ℚ)/10, 2/10, 1/10]] : List (List ℚ)).length) :=
  ⟨by simp, accuracy_is_fraction_of_zero_choices [[(7 : ℚ)/10, 2/10, 1/10]]
    (by simp)⟩

/-- Summing the normalization map distributes over the list. -/
lemma sum_map_sub_div (xs : List ℚ) (m s : ℚ) :
    (xs.map (fun x => (x - m) / s)).sum = (xs.sum - xs.length * m) / s := by
  induction xs with
  | nil => simp
  | cons x xs ih =>
    simp only [List.map_cons, List.sum_cons, ih, List.length_cons]
    rw [div_add_div_same]
    congr 1
    push_cast
    ring

/-- C9: normalizing the feature matrix by its global mean and global standard
deviation yields a matrix of overall mean 0 and overall standard deviation 1
(exactly, in exact arithmetic), whenever the entries are not all equal; in
that case the standard deviation is nonzero. -/
theorem normalize_features_standardizes (xs : List ℚ) (s a b : ℚ)
    (hstd : is_std xs s) (ha : a ∈ xs) (hb : b ∈ xs) (hab : a ≠ b) :
    s ≠ 0 ∧
    features_mean (normalize_features xs s) = 0 ∧
    is_std (normalize_features xs s) 1 := by
  obtain ⟨hs0, hs2⟩ := hstd
  have hne : xs ≠ [] := by rintro rfl; exact (List.not_mem_nil a) ha
  have hn : (0 : ℚ) < xs.length := by
    have : 0 < xs.length := List.length_pos.mpr hne
    exact_mod_cast this
  set m := features_mean xs with hm
  have hex : ∃ x ∈ xs, x ≠ m := by
    by_contra hcon
    push_neg at hcon
    exact hab ((hcon a ha).trans (hcon b hb).symm)
  obtain ⟨x, hx, hxm⟩ := hex
  have hterm : 0 < (x - m) ^ 2 := by
    have hsub : x - m ≠ 0 := sub_ne_zero.mpr hxm
    exact lt_of_le_of_ne (sq_nonneg _) (Ne.symm (pow_ne_zero 2 hsub))
  have hsumle : (x - m) ^ 2 ≤ (xs.map (fun y => (y - m) ^ 2)).sum := by
    apply List.single_le_sum
    · intro y hy
      simp only [List.mem_map] at hy
      obtain ⟨z, _, rfl⟩ := hy
      exact sq_nonneg _
    · exact List.mem_map_of_mem (fun y => (y - m) ^ 2) hx
  have hvar : 0 < features_var xs :=
    div_pos (lt_of_lt_of_le hterm hsumle) hn
  have hsne : s ≠ 0 := by
    rintro rfl
    rw [← hs2] at hvar
    simp at hvar
  have hsum0 : xs.sum - xs.length * m = 0 := by
    rw [hm, features_mean, mul_div_cancel₀ _ (ne_of_gt hn)]
    ring
  have hmean0 : features_mean (normalize_features xs s) = 0 := by
    rw [features_mean, normalize_features, sum_map_sub_div, hsum0]
    simp
  refine ⟨hsne, hmean0, by norm_num, ?_⟩
  rw [features_var, hmean0]
  rw [normalize_features, List.map_map, List.length_map]
  have hmaps : ((fun y => (y - 0) ^ 2) ∘ fun x => (x - m) / s) =
      fun x => (x - m) ^ 2 * (s ^ 2)⁻¹ := by
    funext z
    simp only [Function.comp_apply, sub_zero, div_eq_mul_inv]
    ring
  rw [hmaps]
  rw [List.sum_map_mul_right]
  have hsumsq : (xs.map (fun x => (x - m) ^ 2)).sum = s ^ 2 * xs.length := by
    rw [hs2, features_var, div_mul_cancel₀ _ (ne_of_gt hn)]
  rw [hsumsq]
  have hs2ne : s ^ 2 ≠ 0 := pow_ne_zero 2 hsne
  field_simp

/-- Witness for C9 at the feature list [1, -1], whose global mean is 0 and
global standard deviation is 1. -/
theorem normalize_features_standardizes_witness :
    is_std [(1 : ℚ), -1] 1 ∧ (1 : ℚ) ∈ [(1 : ℚ), -1] ∧
    (-1 : ℚ) ∈ [(1 : ℚ), -1] ∧ (1 : ℚ) ≠ -1 ∧
    ((1 : ℚ) ≠ 0 ∧ features_mean (normalize_features [(1 : ℚ), -1] 1) = 0 ∧
      is_std (normalize_features [(1 : ℚ), -1] 1) 1) :=
  have h1 : is_std [(1 : ℚ), -1] 1 := by
    norm_num [is_std, features_var, features_mean]
  ⟨h1, by simp, by simp, by norm_num,
    normalize_features_standardizes [(1 : ℚ), -1] 1 1 (-1) h1 (by simp)
      (by simp) (by norm_num)⟩

/-- Witness for C8 at a concrete 4-fold split. -/
theorem cv_loop_stops_after_first_fold_witness :
    ([0, 1, 2, 3] : List ℕ) = 0 :: [1, 2, 3] ∧
    ((cv_loop [0, 1, 2, 3] (fun n => (n, [(n : ℤ)]))).1.length = 1 ∧
      cv_loop [0, 1, 2, 3] (fun n => (n, [(n : ℤ)])) = ([(1, 0)], [0])) :=
  ⟨rfl, cv_loop_stops_after_first_fold [0, 1, 2, 3]
    (fun n => (n, [(n : ℤ)])) 0 [1, 2, 3] rfl⟩

end Glocal
